import Mathlib

/-!
Verification of the RustDB document store (`src/rustDB/src/lib.rs`).

The development shallowly embeds the library: `serde_json::Value` becomes the
inductive `Json` (numbers are modelled as unbounded integers; the float side of
`serde_json::Number` is out of scope), `HashMap` becomes an association list
with filter-based update (iteration order of `HashMap` is unspecified, so any
order is a faithful image), and file-system effects are passed explicitly
(`Except IoErrorKind String` for a read, `Except IoErrorKind Unit` for a
write).  The snapshot codec (`serde_json::to_string_pretty` / `from_str`) is
modelled by an executable pretty-printer and parser whose errors carry the
`is_eof` flag that `From<serde_json::Error> for RustDbError` branches on.
-/

namespace RustDB

/-- Model of `serde_json::Value` (`pub type Document = serde_json::Value;`).
Numbers are modelled as unbounded integers. -/
inductive Json where
  | null
  | bool (b : Bool)
  | num (n : Int)
  | str (s : String)
  | arr (items : List Json)
  | obj (fields : List (String × Json))
deriving Inhabited

/-- Model of `serde_json`'s whitespace set (space, tab, line feed, carriage
return), skipped between JSON tokens. -/
def isJsonWs (c : Char) : Bool :=
  c == ' ' || c == '\t' || c == '\n' || c == '\r'

/-- Model of Rust `char::is_whitespace` (the Unicode `White_Space` property),
used by `str::trim` in `RustDb::load`. -/
def isRustWs (c : Char) : Bool :=
  let n := c.toNat
  (0x09 ≤ n && n ≤ 0x0D) || n == 0x20 || n == 0x85 || n == 0xA0 ||
  n == 0x1680 || (0x2000 ≤ n && n ≤ 0x200A) || n == 0x2028 || n == 0x2029 ||
  n == 0x202F || n == 0x205F || n == 0x3000

/-- Model of `str::trim`: drop leading and trailing whitespace characters. -/
def trimChars (cs : List Char) : List Char :=
  ((cs.dropWhile isRustWs).reverse.dropWhile isRustWs).reverse

/-- Decimal digit check used by the number lexer (`'0' ≤ c ≤ '9'`). -/
def isDigitCh (c : Char) : Bool :=
  '0' ≤ c && c ≤ '9'

/-! ### Association lists, the model of `std::collections::HashMap`

A `HashMap` is modelled as an association list whose keys are distinct; since
`HashMap` iteration order is unspecified, an update is free to reposition the
touched key, and the filter-based definitions below do exactly that. -/

/-- Model of `HashMap::get`: first value stored under the key. -/
def alGet (l : List (String × α)) (k : String) : Option α :=
  match l with
  | [] => none
  | (k', v) :: t => if k' = k then some v else alGet t k

/-- Model of `HashMap::remove`'s effect on the map: all entries for other keys,
in order. -/
def alDrop (l : List (String × α)) (k : String) : List (String × α) :=
  l.filter (fun p => p.1 ≠ k)

/-- Model of `HashMap::insert`: the binding for `k` becomes `v`, every other
binding is kept. -/
def alPut (l : List (String × α)) (k : String) (v : α) : List (String × α) :=
  alDrop l k ++ [(k, v)]

/-- One collection: document id to document (`HashMap<String, Document>`). -/
abbrev Collection := List (String × Json)

/-- The collections map (`HashMap<String, HashMap<String, Document>>`). -/
abbrev Collections := List (String × Collection)

/-! ### The snapshot encoder, modelling `serde_json::to_string_pretty`

`to_string_pretty` uses two-space indentation, a newline after every opening
bracket of a nonempty container, `": "` after object keys, and prints empty
containers as `[]` / `{}`. -/

/-- Hexadecimal digit character (lowercase), for `\u00XX` escapes. -/
def hexDigitChar (n : Nat) : Char :=
  if n < 10 then Char.ofNat ('0'.toNat + n) else Char.ofNat ('a'.toNat + n - 10)

/-- JSON escaping of one character, as `serde_json` performs it: quote,
backslash and the named control escapes get two-character forms, any other
control character becomes `\u00XX`, everything else is emitted raw. -/
def escapeChar (c : Char) : List Char :=
  match c with
  | '\x5c' => ['\\', '\\']
  | '\x22' => ['\\', '"']
  | '\x0c' => ['\\', 'f']
  | '\x08' => ['\\', 'b']
  | '\r' => ['\\', 'r']
  | '\n' => ['\\', 'n']
  | '\t' => ['\\', 't']
  | c =>
    if 32 ≤ c.toNat then [c]
    else
      ['\\', 'u', '0', '0', hexDigitChar (c.toNat / 16), hexDigitChar (c.toNat % 16)]

/-- A rendered JSON string: quote, escaped body, quote. -/
def strChars (s : String) : List Char :=
  '"' :: (s.data.flatMap escapeChar ++ ['"'])

/-- Decimal digit character of `d < 10`. -/
def digitCh (d : Nat) : Char :=
  Char.ofNat ('0'.toNat + d)

/-- Decimal digits of a natural number, most significant first. -/
def natChars (n : Nat) : List Char :=
  if n = 0 then ['0'] else ((Nat.digits 10 n).map digitCh).reverse

/-- Decimal rendering of an integer: optional sign, then digits. -/
def intChars (i : Int) : List Char :=
  if i < 0 then '-' :: natChars i.natAbs else natChars i.natAbs

/-- Two spaces of indentation per nesting level. -/
def indentChars (i : Nat) : List Char :=
  List.replicate (2 * i) ' '

mutual
/-- Pretty-printing of one value at nesting level `i`. -/
def renderVal : Nat → Json → List Char
  | _, .null => ['n', 'u', 'l', 'l']
  | _, .bool true => ['t', 'r', 'u', 'e']
  | _, .bool false => ['f', 'a', 'l', 's', 'e']
  | _, .num n => intChars n
  | _, .str s => strChars s
  | _, .arr [] => ['[', ']']
  | i, .arr (e :: es) =>
    '[' :: '\n' :: (renderItems (i + 1) e es ++ '\n' :: indentChars i ++ [']'])
  | _, .obj [] => ['{', '}']
  | i, .obj (f :: fs) =>
    '{' :: '\n' :: (renderFields (i + 1) f fs ++ '\n' :: indentChars i ++ ['}'])
termination_by _ j => sizeOf j
decreasing_by all_goals (simp_wf; try omega)

/-- Pretty-printing of a nonempty run of array items, comma/newline separated,
each on its own indented line. -/
def renderItems : Nat → Json → List Json → List Char
  | i, e, [] => indentChars i ++ renderVal i e
  | i, e, e2 :: es =>
    indentChars i ++ renderVal i e ++ ',' :: '\n' :: renderItems i e2 es
termination_by _ e es => sizeOf e + sizeOf es
decreasing_by all_goals (simp_wf; try omega)

/-- Pretty-printing of a nonempty run of object members (`"key": value`). -/
def renderFields : Nat → (String × Json) → List (String × Json) → List Char
  | i, (k, v), [] => indentChars i ++ strChars k ++ ':' :: ' ' :: renderVal i v
  | i, (k, v), f :: fs =>
    indentChars i ++ strChars k ++ ':' :: ' ' :: renderVal i v ++
      ',' :: '\n' :: renderFields i f fs
termination_by _ f fs => sizeOf f + sizeOf fs
decreasing_by all_goals (simp_wf; try omega)
end

/-- The collections map as the JSON value `serde` serializes it to: a
two-level object. -/
def jsonOfCollections (cols : Collections) : Json :=
  .obj (cols.map (fun p => (p.1, Json.obj p.2)))

/-- Model of `serde_json::to_string_pretty(&self.collections)`. -/
def encodeCollections (cols : Collections) : String :=
  String.mk (renderVal 0 (jsonOfCollections cols))

/-! ### The snapshot decoder, modelling `serde_json::from_str`

The model keeps exactly the error information the library code consumes:
`serde_json::Error::is_eof()`, true when parsing failed because the input ended
prematurely (`ErrorCode::EofWhileParsing…`), false for every other failure. -/

/-- Model of `serde_json::Error`, reduced to the one bit `RustDbError`'s
`From` instance inspects. -/
structure JsonError where
  isEof : Bool
deriving DecidableEq, Repr

/-- The error for input that ended too early. -/
def eofErr : JsonError := ⟨true⟩

/-- The error for malformed input that did not end too early. -/
def badErr : JsonError := ⟨false⟩

/-- Numeric value of a hexadecimal digit character. -/
def hexDigitVal (c : Char) : Option Nat :=
  let n := c.toNat
  if 48 ≤ n ∧ n ≤ 57 then some (n - 48)
  else if 97 ≤ n ∧ n ≤ 102 then some (n - 87)
  else if 65 ≤ n ∧ n ≤ 70 then some (n - 55)
  else none

/-- Value of a four-digit hexadecimal escape. -/
def hexQuad (a b c d : Char) : Option Nat :=
  match hexDigitVal a, hexDigitVal b, hexDigitVal c, hexDigitVal d with
  | some va, some vb, some vc, some vd =>
    some (((va * 16 + vb) * 16 + vc) * 16 + vd)
  | _, _, _, _ => none

/-- The character a single-letter escape stands for. -/
def unescChar (c : Char) : Option Char :=
  match c with
  | '"' => some '"'
  | '\\' => some '\\'
  | '/' => some '/'
  | 'b' => some '\x08'
  | 'f' => some '\x0c'
  | 'n' => some '\n'
  | 'r' => some '\r'
  | 't' => some '\t'
  | _ => none

/-- Skip JSON whitespace. -/
def skipWs : List Char → List Char
  | [] => []
  | c :: t => if isJsonWs c then skipWs t else c :: t

/-- Match an expected literal tail (e.g. `ull` after `n`); running out of
input is an end-of-file error, a wrong character is not. -/
def expectLit : List Char → List Char → Except JsonError (List Char)
  | [], cs => .ok cs
  | _ :: _, [] => .error eofErr
  | l :: ls, c :: cs => if c = l then expectLit ls cs else .error badErr

/-- Parse the body of a JSON string after the opening quote, accumulating
characters in reverse: plain characters are copied, escapes are decoded, a
raw control character or an unknown escape is malformed, and exhausting the
input is an end-of-file error. Model simplification: a `\u` escape whose
value lies in the surrogate range is treated as malformed (`serde_json`
combines a valid surrogate pair into one character; the encoder never emits
such escapes, so no claim depends on this corner). -/
def parseJStr (acc : List Char) : List Char → Except JsonError (String × List Char)
  | [] => .error eofErr
  | '"' :: r => .ok (String.mk acc.reverse, r)
  | '\\' :: r =>
    match r with
    | [] => .error eofErr
    | 'u' :: r2 =>
      match r2 with
      | a :: b :: c :: d :: r3 =>
        match hexQuad a b c d with
        | none => .error badErr
        | some n =>
          if 0xD800 ≤ n ∧ n ≤ 0xDFFF then .error badErr
          else parseJStr (Char.ofNat n :: acc) r3
      | _ => .error eofErr
    | e :: r2 =>
      match unescChar e with
      | some ch => parseJStr (ch :: acc) r2
      | none => .error badErr
  | c :: r => if c.toNat < 0x20 then .error badErr else parseJStr (c :: acc) r

/-- Longest leading run of decimal digits, with the remainder. -/
def takeDigitRun : List Char → List Char × List Char
  | [] => ([], [])
  | c :: t =>
    if isDigitCh c then
      let (run, rest) := takeDigitRun t
      (c :: run, rest)
    else ([], c :: t)

/-- Numeric value of a run of digit characters, most significant first. -/
def digitRunVal (ds : List Char) : Nat :=
  ds.foldl (fun a c => a * 10 + (c.toNat - '0'.toNat)) 0

/-- Parse an integer JSON number: optional minus sign, then a nonempty digit
run (the model restricts `serde_json`'s number grammar to integers); a bare
sign at end of input is an end-of-file error. -/
def parseNumber (cs : List Char) : Except JsonError (Json × List Char) :=
  match cs with
  | [] => .error eofErr
  | c :: r =>
    if c = '-' then
      match takeDigitRun r with
      | ([], []) => .error eofErr
      | ([], _ :: _) => .error badErr
      | (d :: ds, rest) => .ok (.num (-(digitRunVal (d :: ds) : Int)), rest)
    else
      match takeDigitRun (c :: r) with
      | ([], []) => .error eofErr
      | ([], _ :: _) => .error badErr
      | (d :: ds, rest) => .ok (.num ((digitRunVal (d :: ds) : Int)), rest)

mutual
/-- Parse one JSON value (fuelled; `parseTop` supplies ample fuel). Leading
whitespace is skipped; the head character dispatches exactly as
`serde_json`'s `parse_value` does, and an empty input is an end-of-file
error. -/
def parseVal : Nat → List Char → Except JsonError (Json × List Char)
  | 0, _ => .error badErr
  | fuel + 1, cs =>
    match skipWs cs with
    | [] => .error eofErr
    | c :: r =>
      if c = 'n' then
        match expectLit ['u', 'l', 'l'] r with
        | .ok r2 => .ok (.null, r2)
        | .error e => .error e
      else if c = 't' then
        match expectLit ['r', 'u', 'e'] r with
        | .ok r2 => .ok (.bool true, r2)
        | .error e => .error e
      else if c = 'f' then
        match expectLit ['a', 'l', 's', 'e'] r with
        | .ok r2 => .ok (.bool false, r2)
        | .error e => .error e
      else if c = '"' then
        match parseJStr [] r with
        | .ok (s, r2) => .ok (.str s, r2)
        | .error e => .error e
      else if c = '[' then
        match skipWs r with
        | [] => .error eofErr
        | c2 :: r2 =>
          if c2 = ']' then .ok (.arr [], r2)
          else
            match parseItems fuel r with
            | .ok (es, r3) => .ok (.arr es, r3)
            | .error e => .error e
      else if c = '{' then
        match skipWs r with
        | [] => .error eofErr
        | c2 :: r2 =>
          if c2 = '}' then .ok (.obj [], r2)
          else
            match parseFields fuel r with
            | .ok (fs, r3) => .ok (.obj fs, r3)
            | .error e => .error e
      else if c = '-' ∨ isDigitCh c then parseNumber (c :: r)
      else .error badErr

/-- Parse one or more comma-separated array items up to the closing `]`. -/
def parseItems : Nat → List Char → Except JsonError (List Json × List Char)
  | 0, _ => .error badErr
  | fuel + 1, cs =>
    match parseVal fuel cs with
    | .error e => .error e
    | .ok (v, r) =>
      match skipWs r with
      | [] => .error eofErr
      | c :: r2 =>
        if c = ',' then
          match parseItems fuel r2 with
          | .ok (vs, r3) => .ok (v :: vs, r3)
          | .error e => .error e
        else if c = ']' then .ok ([v], r2)
        else .error badErr

/-- Parse one or more comma-separated object members up to the closing `}`. -/
def parseFields : Nat → List Char →
    Except JsonError (List (String × Json) × List Char)
  | 0, _ => .error badErr
  | fuel + 1, cs =>
    match skipWs cs with
    | [] => .error eofErr
    | c :: r =>
      if c = '"' then
        match parseJStr [] r with
        | .error e => .error e
        | .ok (k, r1) =>
          match skipWs r1 with
          | [] => .error eofErr
          | c2 :: r2 =>
            if c2 = ':' then
              match parseVal fuel r2 with
              | .error e => .error e
              | .ok (v, r3) =>
                match skipWs r3 with
                | [] => .error eofErr
                | c3 :: r4 =>
                  if c3 = ',' then
                    match parseFields fuel r4 with
                    | .ok (kvs, r5) => .ok ((k, v) :: kvs, r5)
                    | .error e => .error e
                  else if c3 = '}' then .ok ([(k, v)], r4)
                  else .error badErr
            else .error badErr
      else .error badErr
end

/-- Parse a complete JSON document: one value, then only whitespace may
remain (`serde_json::from_str` rejects trailing characters). -/
def parseTop (s : String) : Except JsonError Json :=
  match parseVal (s.data.length + 1) s.data with
  | .error e => .error e
  | .ok (v, r) => if (skipWs r).isEmpty then .ok v else .error badErr

/-- Deserialization of one collection: the JSON value must be an object, and
its members are inserted into a fresh map in document order (so a duplicate
key keeps the last value, as `HashMap` deserialization does). -/
def collOfJson (v : Json) : Except JsonError Collection :=
  match v with
  | .obj fs => .ok (fs.foldl (fun acc p => alPut acc p.1 p.2) [])
  | _ => .error badErr

/-- Deserialization of the outer map: visit the members in order, require each
value to be an object, and insert into a fresh map. -/
def collectionsOfFields (acc : Collections) :
    List (String × Json) → Except JsonError Collections
  | [] => .ok acc
  | (k, v) :: fs =>
    match collOfJson v with
    | .error e => .error e
    | .ok coll => collectionsOfFields (alPut acc k coll) fs

/-- Model of `serde_json::from_str::<HashMap<String, HashMap<String,
Document>>>`: parse a JSON value and deserialize the two-level map. -/
def parseCollections (s : String) : Except JsonError Collections :=
  match parseTop s with
  | .error e => .error e
  | .ok (.obj fs) => collectionsOfFields [] fs
  | .ok _ => .error badErr

/-! ### The storage engine, `RustDb` and its methods

File-system effects are explicit: `fs::read_to_string` becomes an
`Except IoErrorKind String` argument (absent file = `notFound`), `fs::write`
becomes an `Except IoErrorKind Unit` argument, and the snapshot content a
mutating method writes is returned alongside the new state. -/

/-- The two classes of `std::io::ErrorKind` the library distinguishes:
`NotFound`, and everything else. -/
inductive IoErrorKind where
  | notFound
  | other
deriving DecidableEq, Repr

/-- Model of `RustDbError`. The serde error variants carry the modelled
`serde_json::Error`. -/
inductive RustDbError where
  | KeyNotFound
  | IoError (kind : IoErrorKind)
  | SerializationError (e : JsonError)
  | DeserializationError (e : JsonError)
deriving DecidableEq, Repr

/-- Model of `impl From<serde_json::Error> for RustDbError`: an end-of-file
parse error becomes `DeserializationError`, every other one becomes
`SerializationError`. -/
def ofJsonError (e : JsonError) : RustDbError :=
  if e.isEof then .DeserializationError e else .SerializationError e

/-- Model of `RustDb`, reduced to the in-memory state; the `file_path` field
only names the snapshot file, whose content the explicit file-system
arguments carry. -/
structure RustDb where
  collections : Collections

/-- Model of `RustDb::load`: read the snapshot file, treat content that trims
to nothing as the empty map, otherwise deserialize; any error propagates
through the `From` conversions. -/
def RustDb.load (readResult : Except IoErrorKind String) (db : RustDb) :
    Except RustDbError RustDb :=
  match readResult with
  | .error k => .error (.IoError k)
  | .ok content =>
    if (trimChars content.data).isEmpty then .ok { db with collections := [] }
    else
      match parseCollections content with
      | .error e => .error (ofJsonError e)
      | .ok cols => .ok { db with collections := cols }

/-- Model of `RustDb::new`: start from an empty map, attempt `load`, and
treat only the `NotFound` read error as "new database". -/
def RustDb.new (readResult : Except IoErrorKind String) :
    Except RustDbError RustDb :=
  let db : RustDb := ⟨[]⟩
  match db.load readResult with
  | .ok db' => .ok db'
  | .error (.IoError .notFound) => .ok db
  | .error e => .error e

/-- Model of `RustDb::save`: serialize the whole map (always succeeds in the
model; see the module comment) and write it; the written snapshot content, or
the propagated write error, is returned. -/
def RustDb.save (db : RustDb) (writeResult : Except IoErrorKind Unit) :
    Option String × Except RustDbError Unit :=
  let serialized := encodeCollections db.collections
  match writeResult with
  | .ok _ => (some serialized, .ok ())
  | .error k => (none, .error (.IoError k))

/-- Outcome of a mutating method: the state it leaves behind, the snapshot
content it wrote (`none` when no write happened), and its return value. -/
structure MutOutcome where
  db : RustDb
  written : Option String
  result : Except RustDbError Unit

/-- Model of `RustDb::insert_document`: upsert into the collection (created
via `entry(..).or_default()` when absent), then `save`; a save error
propagates but the in-memory mutation stays. -/
def RustDb.insert_document (db : RustDb) (collection_name document_id : String)
    (document : Json) (writeResult : Except IoErrorKind Unit) : MutOutcome :=
  let coll := (alGet db.collections collection_name).getD []
  let db' : RustDb :=
    ⟨alPut db.collections collection_name (alPut coll document_id document)⟩
  let (written, result) := db'.save writeResult
  ⟨db', written, result⟩

/-- Model of `RustDb::get_document`: pure read through both maps. -/
def RustDb.get_document (db : RustDb) (collection_name document_id : String) :
    Option Json :=
  (alGet db.collections collection_name).bind fun coll => alGet coll document_id

/-- Model of `RustDb::delete_document`: if the collection exists and removing
the id took something out, save; otherwise `KeyNotFound` with no state change
and no write. -/
def RustDb.delete_document (db : RustDb) (collection_name document_id : String)
    (writeResult : Except IoErrorKind Unit) : MutOutcome :=
  match alGet db.collections collection_name with
  | some coll =>
    if (alGet coll document_id).isSome then
      let db' : RustDb :=
        ⟨alPut db.collections collection_name (alDrop coll document_id)⟩
      let (written, result) := db'.save writeResult
      ⟨db', written, result⟩
    else ⟨db, none, .error .KeyNotFound⟩
  | none => ⟨db, none, .error .KeyNotFound⟩

/-- Model of `RustDb::list_collection_documents`: the collection's entries,
or an empty list when the collection is absent. -/
def RustDb.list_collection_documents (db : RustDb) (collection_name : String) :
    List (String × Json) :=
  (alGet db.collections collection_name).getD []

/-- Model of `RustDb::clear_collections`: empty the collection in place when
it exists, then save unconditionally. -/
def RustDb.clear_collections (db : RustDb) (collection_name : String)
    (writeResult : Except IoErrorKind Unit) : MutOutcome :=
  let db' : RustDb :=
    match alGet db.collections collection_name with
    | some _ => ⟨alPut db.collections collection_name []⟩
    | none => db
  let (written, result) := db'.save writeResult
  ⟨db', written, result⟩

/-! ### The file-system world, for claims about files `RustDb` never touches

`RustDb::new` and `RustDb::load` only ever call `fs::read_to_string` on the
snapshot path and never write; in particular the library contains no
write-ahead-log code at all, so any other file — a WAL file included — is
untouched by `open`. -/

/-- On-disk state: the snapshot file's content (`none` = absent) and the
content of a hypothetical WAL file next to it. -/
structure World where
  snapshot : Option String
  wal : String
deriving DecidableEq, Repr

/-- What `fs::read_to_string(path)` returns in a given world. -/
def World.readSnapshot (w : World) : Except IoErrorKind String :=
  match w.snapshot with
  | none => .error .notFound
  | some s => .ok s

/-- Model of `RustDb::new` run against a world: the constructor performs no
write and reads only the snapshot, so the world comes back unchanged. -/
def RustDb.newInWorld (w : World) : Except RustDbError (RustDb × World) :=
  match RustDb.new w.readSnapshot with
  | .ok db => .ok (db, w)
  | .error e => .error e

/-- A remainder the number lexer cannot extend: empty input or a non-digit
head. Every position a rendered value is followed by (a comma, a newline, a
closing bracket, end of input) satisfies it. -/
def numBoundary : List Char → Bool
  | [] => true
  | c :: _ => !isDigitCh c

theorem alGet_alDrop_self (l : List (String × α)) (k : String) :
    alGet (alDrop l k) k = none := by
  induction l with
  | nil => rfl
  | cons p t ih =>
    obtain ⟨k', v⟩ := p
    by_cases h : k' = k
    · simpa [alDrop, List.filter_cons, h] using ih
    · simpa [alDrop, List.filter_cons, h, alGet] using ih

theorem alGet_alDrop_ne (l : List (String × α)) (k k' : String) (h : k' ≠ k) :
    alGet (alDrop l k) k' = alGet l k' := by
  induction l with
  | nil => rfl
  | cons p t ih =>
    obtain ⟨k0, v⟩ := p
    by_cases h0 : k0 = k
    · have h1 : ¬ k = k' := fun hh => h hh.symm
      simpa [alDrop, List.filter_cons, alGet, h0, h1] using ih
    · by_cases h1 : k0 = k'
      · simp [alDrop, List.filter_cons, alGet, h0, h1, h]
      · simpa [alDrop, List.filter_cons, alGet, h0, h1] using ih

theorem alGet_alPut_self (l : List (String × α)) (k : String) (v : α) :
    alGet (alPut l k v) k = some v := by
  unfold alPut
  induction l with
  | nil => simp [alGet]
  | cons p t ih =>
    obtain ⟨k0, v0⟩ := p
    by_cases h0 : k0 = k
    · simpa [alDrop, List.filter_cons, h0] using ih
    · simpa [alDrop, List.filter_cons, h0, alGet] using ih

theorem alGet_alPut_ne (l : List (String × α)) (k k' : String) (v : α)
    (h : k' ≠ k) : alGet (alPut l k v) k' = alGet l k' := by
  have hkk : ¬ k = k' := fun hk => h hk.symm
  unfold alPut
  induction l with
  | nil => simp [alGet, hkk]
  | cons p t ih =>
    obtain ⟨k0, v0⟩ := p
    by_cases h0 : k0 = k
    · have h1 : ¬ k = k' := fun hh => h hh.symm
      simpa [alDrop, List.filter_cons, alGet, h0, h1] using ih
    · by_cases h1 : k0 = k'
      · simp [alDrop, List.filter_cons, alGet, h0, h1, h]
      · simpa [alDrop, List.filter_cons, alGet, h0, h1] using ih

theorem alDrop_alDrop_self (l : List (String × α)) (k : String) :
    alDrop (alDrop l k) k = alDrop l k := by
  induction l with
  | nil => rfl
  | cons p t ih =>
    obtain ⟨k0, v0⟩ := p
    by_cases h0 : k0 = k
    · simp [alDrop, List.filter_cons, h0]
    · simp [alDrop, List.filter_cons, h0]

theorem alDrop_alPut_self (l : List (String × α)) (k : String) (v : α) :
    alDrop (alPut l k v) k = alDrop l k := by
  unfold alPut
  induction l with
  | nil => simp [alDrop, List.filter_cons]
  | cons p t ih =>
    obtain ⟨k0, v0⟩ := p
    by_cases h0 : k0 = k
    · simp [alDrop, List.filter_cons, List.filter_append, h0]
    · simp [alDrop, List.filter_cons, List.filter_append, h0]

theorem alPut_alPut_self (l : List (String × α)) (k : String) (v1 v2 : α) :
    alPut (alPut l k v1) k v2 = alPut l k v2 := by
  show alDrop (alPut l k v1) k ++ [(k, v2)] = alDrop l k ++ [(k, v2)]
  rw [alDrop_alPut_self]

theorem alDrop_filter_key (l : List (String × α)) (k : String) :
    (alDrop l k).filter (fun p => p.1 = k) = [] := by
  induction l with
  | nil => rfl
  | cons p t ih =>
    obtain ⟨k0, v0⟩ := p
    by_cases h0 : k0 = k
    · simp [alDrop, List.filter_cons, h0]
    · simp [alDrop, List.filter_cons, h0]

theorem alPut_filter_key (l : List (String × α)) (k : String) (v : α) :
    (alPut l k v).filter (fun p => p.1 = k) = [(k, v)] := by
  simp [alPut, List.filter_append, List.filter_cons, alDrop_filter_key]

/-! ## Claim theorems: the storage-engine contract -/

/-- C1: after a successful `insert_document(c, i, d)`, `get_document(c, i)`
returns the exact document `d`; after a subsequent successful
`delete_document(c, i)`, `get_document(c, i)` returns `none` (both saves
succeed, so both operations succeed). -/
theorem insert_get_delete_roundtrip (db : RustDb) (c i : String) (d : Json) :
    (db.insert_document c i d (.ok ())).result = .ok () ∧
    (db.insert_document c i d (.ok ())).db.get_document c i = some d ∧
    ((db.insert_document c i d (.ok ())).db.delete_document c i
        (.ok ())).result = .ok () ∧
    ((db.insert_document c i d (.ok ())).db.delete_document c i
        (.ok ())).db.get_document c i = none := by
  refine ⟨rfl, ?_, ?_, ?_⟩
  · simp [RustDb.insert_document, RustDb.get_document, RustDb.save,
      alGet_alPut_self]
  · simp [RustDb.insert_document, RustDb.delete_document, RustDb.save,
      alGet_alPut_self]
  · simp [RustDb.insert_document, RustDb.delete_document, RustDb.get_document,
      RustDb.save, alGet_alPut_self, alGet_alDrop_self]

/-- C5: `delete_document(c, i)` returns `KeyNotFound` exactly when the
collection is absent or the id is absent within it (equivalently, when
`get_document(c, i)` is `none`), and in that case the in-memory map is
unchanged and nothing is written. -/
theorem delete_keyNotFound_spec (db : RustDb) (c i : String)
    (w : Except IoErrorKind Unit) :
    ((db.delete_document c i w).result = .error .KeyNotFound ↔
      db.get_document c i = none) ∧
    (db.get_document c i = none →
      (db.delete_document c i w).db = db ∧
      (db.delete_document c i w).written = none) := by
  unfold RustDb.delete_document RustDb.get_document
  cases hg : alGet db.collections c with
  | none => simp [hg]
  | some coll =>
    cases hi : alGet coll i with
    | none => simp [hg, hi]
    | some d =>
      cases w with
      | ok u => simp [hg, hi, RustDb.save]
      | error k => simp [hg, hi, RustDb.save]

/-- C5 witness: deleting from the empty database reports `KeyNotFound`,
leaves the state untouched and writes nothing. -/
theorem delete_keyNotFound_spec_witness :
    ((RustDb.mk []).delete_document "users" "u1" (.ok ())).result =
      .error .KeyNotFound ∧
    ((RustDb.mk []).delete_document "users" "u1" (.ok ())).db = ⟨[]⟩ ∧
    ((RustDb.mk []).delete_document "users" "u1" (.ok ())).written = none := by
  have h := delete_keyNotFound_spec ⟨[]⟩ "users" "u1" (.ok ())
  exact ⟨h.1.mpr rfl, (h.2 rfl).1, (h.2 rfl).2⟩

/-- C6: inserting under an already-present `(c, i)` overwrites in place with
last-write-wins semantics: inserting `d1` then `d2` leaves exactly the state
of inserting `d2` alone, and listing `c` afterwards yields exactly one entry
for `i`, holding `d2`. -/
theorem insert_overwrite_spec (db : RustDb) (c i : String) (d1 d2 : Json)
    (w1 w2 w3 : Except IoErrorKind Unit) :
    ((db.insert_document c i d1 w1).db.insert_document c i d2 w2).db =
      (db.insert_document c i d2 w3).db ∧
    (((db.insert_document c i d1 w1).db.insert_document c i d2
        w2).db.list_collection_documents c).filter (fun p => p.1 = i) =
      [(i, d2)] := by
  have hstate :
      ((db.insert_document c i d1 w1).db.insert_document c i d2 w2).db =
        (db.insert_document c i d2 w3).db := by
    simp [RustDb.insert_document, alGet_alPut_self, alPut_alPut_self]
  refine ⟨hstate, ?_⟩
  rw [hstate]
  simp [RustDb.insert_document, RustDb.list_collection_documents,
    alGet_alPut_self, alPut_filter_key]

/-- C7: with a succeeding write, `clear_collections(c)` returns success and
persists a snapshot of the resulting state; an existing collection `c` stays
present but becomes empty, every other collection is untouched, and clearing
an absent collection leaves the in-memory state exactly as it was. -/
theorem clear_collections_spec (db : RustDb) (c : String) :
    (db.clear_collections c (.ok ())).result = .ok () ∧
    (db.clear_collections c (.ok ())).written =
      some (encodeCollections (db.clear_collections c (.ok ())).db.collections) ∧
    ((alGet db.collections c).isSome = true →
      alGet (db.clear_collections c (.ok ())).db.collections c = some []) ∧
    (∀ c', c' ≠ c →
      alGet (db.clear_collections c (.ok ())).db.collections c' =
        alGet db.collections c') ∧
    (alGet db.collections c = none → (db.clear_collections c (.ok ())).db = db) := by
  unfold RustDb.clear_collections
  cases hg : alGet db.collections c with
  | none => simp [hg, RustDb.save]
  | some coll =>
    refine ⟨?_, ?_, fun _ => ?_, fun c' hne => ?_, fun h => ?_⟩
    · simp [hg, RustDb.save]
    · simp [hg, RustDb.save]
    · simp [hg, alGet_alPut_self]
    · simp [hg, alGet_alPut_ne _ _ _ _ hne]
    · exact Option.noConfusion h

/-- C7 witness: a two-collection database; clearing `"a"` keeps it present
and empty, leaves `"b"` alone, writes a snapshot and reports success. -/
theorem clear_collections_spec_witness :
    ((RustDb.mk [("a", [("x", Json.null)]), ("b", [])]).clear_collections "a"
        (.ok ())).result = .ok () ∧
    alGet ((RustDb.mk [("a", [("x", Json.null)]), ("b", [])]).clear_collections
        "a" (.ok ())).db.collections "a" = some [] ∧
    alGet ((RustDb.mk [("a", [("x", Json.null)]), ("b", [])]).clear_collections
        "a" (.ok ())).db.collections "b" =
      alGet (RustDb.mk [("a", [("x", Json.null)]), ("b", [])]).collections "b" := by
  have h := clear_collections_spec
    (RustDb.mk [("a", [("x", Json.null)]), ("b", [])]) "a"
  exact ⟨h.1, h.2.2.1 rfl, h.2.2.2.1 "b" (by decide)⟩

/-- C8: when the snapshot write fails during `insert_document`, the error is
returned to the caller, nothing is written, and the in-memory mutation is
not rolled back: the new document is still retrievable. -/
theorem insert_save_failure_keeps_memory (db : RustDb) (c i : String)
    (d : Json) (k : IoErrorKind) :
    (db.insert_document c i d (.error k)).result = .error (.IoError k) ∧
    (db.insert_document c i d (.error k)).written = none ∧
    (db.insert_document c i d (.error k)).db.get_document c i = some d := by
  refine ⟨rfl, rfl, ?_⟩
  simp [RustDb.insert_document, RustDb.get_document, alGet_alPut_self]

/-! ## Claim theorems: opening the store -/

theorem trimChars_eq_nil (cs : List Char) (h : ∀ c ∈ cs, isRustWs c = true) :
    trimChars cs = [] := by
  unfold trimChars
  rw [List.dropWhile_eq_nil_iff.mpr fun c hc => h c hc]
  rfl

/-- C9: opening a store whose snapshot content consists only of whitespace
characters succeeds with an empty database, exactly as for a zero-length or
absent snapshot file: `load` treats content that trims to nothing as the
empty map without attempting to decode it. -/
theorem new_whitespace_snapshot_empty (content : String)
    (h : ∀ c ∈ content.data, isRustWs c = true) :
    RustDb.new (.ok content) = .ok ⟨[]⟩ ∧
    RustDb.new (.ok "") = .ok ⟨[]⟩ ∧
    RustDb.new (.error .notFound) = .ok ⟨[]⟩ := by
  refine ⟨?_, rfl, rfl⟩
  simp [RustDb.new, RustDb.load, trimChars_eq_nil content.data h]

/-- C9 witness: a snapshot holding one space and one newline opens as the
empty database. -/
theorem new_whitespace_snapshot_empty_witness :
    (∀ c ∈ (" \n" : String).data, isRustWs c = true) ∧
    RustDb.new (.ok " \n") = .ok ⟨[]⟩ :=
  ⟨by decide, (new_whitespace_snapshot_empty " \n" (by decide)).1⟩

/-- C4 counterexample: a snapshot holding a single space exists, is nonempty,
and is not a valid encoding (decoding it fails), yet `RustDb::new` succeeds
with an empty database instead of propagating an error. -/
theorem new_nonblank_invalid_counterexample :
    (" " : String) ≠ "" ∧
    parseCollections " " = .error eofErr ∧
    RustDb.new (.ok " ") = .ok ⟨[]⟩ :=
  ⟨by decide, rfl, rfl⟩

/-- C4 (amended): `new` succeeds with an empty database when the snapshot is
absent or its content trims to whitespace-only (zero-length included); a read
error other than `NotFound` propagates; and content that does not trim to
nothing and fails to decode propagates the converted decode error. -/
theorem new_open_outcomes :
    (∀ content : String, trimChars content.data = [] →
      RustDb.new (.ok content) = .ok ⟨[]⟩) ∧
    RustDb.new (.error .notFound) = .ok ⟨[]⟩ ∧
    (∀ k, k ≠ IoErrorKind.notFound →
      RustDb.new (.error k) = .error (.IoError k)) ∧
    (∀ (content : String) (e : JsonError), trimChars content.data ≠ [] →
      parseCollections content = .error e →
      RustDb.new (.ok content) = .error (ofJsonError e)) := by
  refine ⟨fun content h => ?_, rfl, fun k hk => ?_, fun content e h he => ?_⟩
  · simp [RustDb.new, RustDb.load, h]
  · cases k with
    | notFound => exact absurd rfl hk
    | other => rfl
  · have hne : (trimChars content.data).isEmpty = false := by
      cases hcc : trimChars content.data with
      | nil => exact absurd hcc h
      | cons a t => rfl
    obtain ⟨b⟩ := e
    cases b <;> simp [RustDb.new, RustDb.load, hne, he, ofJsonError]

/-- C4 witness: the three conditional branches at concrete inputs — a
whitespace snapshot opens empty, a non-`NotFound` read error propagates, and
the truncated snapshot `{` propagates a deserialization error. -/
theorem new_open_outcomes_witness :
    RustDb.new (.ok "\t") = .ok ⟨[]⟩ ∧
    RustDb.new (.error .other) = .error (.IoError .other) ∧
    RustDb.new (.ok "\x7b") = .error (ofJsonError eofErr) :=
  ⟨new_open_outcomes.1 "\t" (by decide),
   new_open_outcomes.2.2.1 .other (by decide),
   new_open_outcomes.2.2.2 "\x7b" eofErr (by decide) rfl⟩

/-- C2 counterexample: opening a store whose snapshot is missing and whose
WAL file holds `insert k1 v1`, `delete k1`, `insert k1 v2` yields the empty
database — no key is recovered from the log — and leaves the WAL file's
content unchanged and nonempty, because `RustDb::new` contains no
write-ahead-log handling at all. -/
theorem new_ignores_wal_counterexample :
    RustDb.newInWorld ⟨none, "insert k1 v1\ndelete k1\ninsert k1 v2"⟩ =
      .ok (⟨[]⟩, ⟨none, "insert k1 v1\ndelete k1\ninsert k1 v2"⟩) ∧
    ("insert k1 v1\ndelete k1\ninsert k1 v2" : String) ≠ "" ∧
    (RustDb.mk []).get_document "k1" "k1" = none :=
  ⟨rfl, by decide, rfl⟩

/-- C2 (amended): `RustDb::new` performs no write-ahead-log recovery and no
file writes: opening a store with a missing snapshot succeeds with an empty
database, and the on-disk world — any WAL file included — is returned
exactly as it was. -/
theorem new_no_wal_recovery (w : World) (h : w.snapshot = none) :
    RustDb.newInWorld w = .ok (⟨[]⟩, w) := by
  unfold RustDb.newInWorld World.readSnapshot
  rw [h]
  rfl

/-- C2 witness: the amended statement at the concrete world whose WAL holds
three flat records. -/
theorem new_no_wal_recovery_witness :
    RustDb.newInWorld ⟨none, "insert a 1"⟩ = .ok (⟨[]⟩, ⟨none, "insert a 1"⟩) :=
  new_no_wal_recovery ⟨none, "insert a 1"⟩ rfl

theorem digitCh_isDigit : ∀ d < 10, isDigitCh (digitCh d) = true := by decide

theorem digitCh_val : ∀ d < 10, (digitCh d).toNat - '0'.toNat = d := by decide

theorem isJsonWs_cases {c : Char} (h : isJsonWs c = true) :
    c = ' ' ∨ c = '\t' ∨ c = '\n' ∨ c = '\r' := by
  simpa [isJsonWs, or_assoc] using h

theorem isJsonWs_not_digit {c : Char} (h : isJsonWs c = true) :
    isDigitCh c = false := by
  rcases isJsonWs_cases h with rfl | rfl | rfl | rfl <;> decide

theorem isDigitCh_not_jsonWs {c : Char} (h : isDigitCh c = true) :
    isJsonWs c = false := by
  cases hw : isJsonWs c with
  | false => rfl
  | true =>
    rcases isJsonWs_cases hw with rfl | rfl | rfl | rfl <;> exact absurd h (by decide)

theorem isDigitCh_head_facts {c : Char} (h : isDigitCh c = true) :
    isJsonWs c = false ∧ c ≠ ']' ∧ c ≠ '}' ∧ c ≠ 'n' ∧ c ≠ 't' ∧ c ≠ 'f' ∧
      c ≠ '"' ∧ c ≠ '[' ∧ c ≠ '{' ∧ c ≠ '-' := by
  refine ⟨isDigitCh_not_jsonWs h, ?_, ?_, ?_, ?_, ?_, ?_, ?_, ?_, ?_⟩ <;>
    (rintro rfl; revert h; decide)

/-! ## Decimal round trip -/

theorem foldl_digit_step (ds : List Nat) (h : ∀ d ∈ ds, d < 10) : ∀ a : Nat,
    List.foldl (fun x c => x * 10 + (c.toNat - '0'.toNat)) a (ds.map digitCh) =
      a * 10 ^ ds.length + Nat.ofDigits 10 ds.reverse := by
  induction ds with
  | nil => intro a; simp [Nat.ofDigits]
  | cons d t ih =>
    intro a
    have hd : d < 10 := h d (List.mem_cons_self d t)
    rw [List.map_cons, List.foldl_cons, ih (fun x hx => h x (List.mem_cons_of_mem d hx)),
      digitCh_val d hd, List.reverse_cons, Nat.ofDigits_append, Nat.ofDigits_singleton,
      List.length_cons, List.length_reverse]
    ring

theorem digitRunVal_natChars (n : Nat) : digitRunVal (natChars n) = n := by
  by_cases h0 : n = 0
  · subst h0; decide
  · have hlt : ∀ d ∈ (Nat.digits 10 n).reverse, d < 10 := fun d hd =>
      Nat.digits_lt_base (by norm_num) (List.mem_reverse.mp hd)
    rw [natChars, if_neg h0, digitRunVal, ← List.map_reverse,
      foldl_digit_step _ hlt 0, List.reverse_reverse, Nat.ofDigits_digits]
    simp

theorem natChars_digits (n : Nat) : ∀ c ∈ natChars n, isDigitCh c = true := by
  by_cases h0 : n = 0
  · subst h0; decide
  · intro c hc
    rw [natChars, if_neg h0, List.mem_reverse] at hc
    obtain ⟨d, hd, rfl⟩ := List.mem_map.mp hc
    exact digitCh_isDigit d (Nat.digits_lt_base (by norm_num) hd)

theorem natChars_ne_nil (n : Nat) : natChars n ≠ [] := by
  by_cases h0 : n = 0
  · subst h0; decide
  · rw [natChars, if_neg h0]
    simp [Nat.digits_ne_nil_iff_ne_zero.mpr h0]

/-! ## Digit-run lexer inversion -/

theorem takeDigitRun_boundary (cs : List Char) (h : numBoundary cs = true) :
    takeDigitRun cs = ([], cs) := by
  cases cs with
  | nil => rfl
  | cons c t =>
    have : isDigitCh c = false := by simpa [numBoundary] using h
    simp [takeDigitRun, this]

theorem takeDigitRun_append (run rest : List Char)
    (hrun : ∀ c ∈ run, isDigitCh c = true) (hrest : numBoundary rest = true) :
    takeDigitRun (run ++ rest) = (run, rest) := by
  induction run with
  | nil => simpa using takeDigitRun_boundary rest hrest
  | cons c t ih =>
    have hc : isDigitCh c = true := hrun c (List.mem_cons_self c t)
    simp [takeDigitRun, hc, ih fun x hx => hrun x (List.mem_cons_of_mem c hx)]

/-! ## Whitespace skipping -/

theorem skipWs_cons_not_ws {c : Char} (t : List Char) (h : isJsonWs c = false) :
    skipWs (c :: t) = c :: t := by
  simp [skipWs, h]

theorem skipWs_append_ws (l x : List Char) (h : ∀ c ∈ l, isJsonWs c = true) :
    skipWs (l ++ x) = skipWs x := by
  induction l with
  | nil => rfl
  | cons c t ih =>
    rw [List.cons_append, skipWs, if_pos (h c (List.mem_cons_self c t))]
    exact ih fun x hx => h x (List.mem_cons_of_mem c hx)

theorem indentChars_ws (i : Nat) : ∀ c ∈ indentChars i, isJsonWs c = true := by
  intro c hc
  have hc2 : c = ' ' := List.eq_of_mem_replicate (by simpa [indentChars] using hc)
  subst hc2
  decide

/-! ## Literal matching -/

theorem expectLit_self (lit rest : List Char) :
    expectLit lit (lit ++ rest) = .ok rest := by
  induction lit with
  | nil => rfl
  | cons l ls ih => simp [expectLit, ih]

/-! ## String codec inversion -/

theorem hexDigitVal_hexDigitChar : ∀ k < 16, hexDigitVal (hexDigitChar k) = some k := by
  decide

theorem strMk_data (s : String) : String.mk s.data = s := rfl

theorem parseJStr_u_escape (acc rest : List Char) (x y : Char) (n : Nat)
    (hq : hexQuad '0' '0' x y = some n) (hn : ¬ (0xD800 ≤ n ∧ n ≤ 0xDFFF)) :
    parseJStr acc ('\\' :: 'u' :: '0' :: '0' :: x :: y :: rest) =
      parseJStr (Char.ofNat n :: acc) rest := by
  have step : parseJStr acc ('\\' :: 'u' :: '0' :: '0' :: x :: y :: rest) =
      (match hexQuad '0' '0' x y with
       | none => Except.error badErr
       | some n =>
         if 0xD800 ≤ n ∧ n ≤ 0xDFFF then Except.error badErr
         else parseJStr (Char.ofNat n :: acc) rest) := rfl
  rw [step, hq]
  simp only [if_neg hn]

theorem parseJStr_escapeChar (c : Char) (acc rest : List Char) :
    parseJStr acc (escapeChar c ++ rest) = parseJStr (c :: acc) rest := by
  unfold escapeChar
  split
  · rfl
  · rfl
  · rfl
  · rfl
  · rfl
  · rfl
  · rfl
  · rename_i hs1 hs2 hs3 hs4 hs5 hs6 hs7
    by_cases hge : 32 ≤ c.toNat
    · rw [if_pos hge]
      show parseJStr acc (c :: rest) = parseJStr (c :: acc) rest
      rw [parseJStr.eq_def]
      split
      · rename_i heq
        exact absurd heq (List.cons_ne_nil c rest)
      · rename_i r heq
        rw [List.cons.injEq] at heq
        exact absurd heq.1 hs2
      · rename_i r heq
        rw [List.cons.injEq] at heq
        exact absurd heq.1 hs1
      · rename_i c2 r2 heq
        rw [List.cons.injEq] at heq
        obtain ⟨rfl, rfl⟩ := heq
        rw [if_neg (by omega : ¬ c.toNat < 0x20)]
    · rw [if_neg hge]
      have ha := hexDigitVal_hexDigitChar (c.toNat / 16) (by omega)
      have hb := hexDigitVal_hexDigitChar (c.toNat % 16) (by omega)
      have hq : hexQuad '0' '0' (hexDigitChar (c.toNat / 16))
          (hexDigitChar (c.toNat % 16)) = some c.toNat := by
        simp only [hexQuad, ha, hb, show hexDigitVal '0' = some 0 from rfl,
          Option.some.injEq]
        omega
      show parseJStr acc ('\\' :: 'u' :: '0' :: '0' :: hexDigitChar (c.toNat / 16) ::
        hexDigitChar (c.toNat % 16) :: rest) = parseJStr (c :: acc) rest
      rw [parseJStr_u_escape acc rest _ _ c.toNat hq (by omega), Char.ofNat_toNat]

theorem parseJStr_escBody (cs : List Char) : ∀ acc rest : List Char,
    parseJStr acc (cs.flatMap escapeChar ++ '"' :: rest) =
      .ok (String.mk (acc.reverse ++ cs), rest) := by
  induction cs with
  | nil =>
    intro acc rest
    rw [List.flatMap_nil, List.nil_append, List.append_nil]
    rfl
  | cons c t ih =>
    intro acc rest
    rw [List.flatMap_cons, List.append_assoc, parseJStr_escapeChar, ih]
    simp

theorem parseJStr_strChars (s : String) (rest : List Char) :
    parseJStr [] (s.data.flatMap escapeChar ++ '"' :: rest) = .ok (s, rest) := by
  rw [parseJStr_escBody]
  simp [strMk_data]

/-! ## Number parser inversion -/

theorem parseNumber_intChars (n : Int) (rest : List Char)
    (h : numBoundary rest = true) :
    parseNumber (intChars n ++ rest) = .ok (.num n, rest) := by
  obtain ⟨d, ds, hnat⟩ := List.exists_cons_of_ne_nil (natChars_ne_nil n.natAbs)
  have hrun : takeDigitRun (natChars n.natAbs ++ rest) = (natChars n.natAbs, rest) :=
    takeDigitRun_append _ _ (natChars_digits n.natAbs) h
  have hval : digitRunVal (natChars n.natAbs) = n.natAbs := digitRunVal_natChars n.natAbs
  by_cases hneg : n < 0
  · rw [intChars, if_pos hneg, List.cons_append, parseNumber, if_pos rfl, hrun, hnat]
    show Except.ok (Json.num (-(digitRunVal (d :: ds) : Int)), rest) =
      Except.ok (Json.num n, rest)
    rw [← hnat, hval]
    have hcast : -((n.natAbs : Int)) = n := by omega
    rw [hcast]
  · have hd : isDigitCh d = true :=
      natChars_digits n.natAbs d (hnat ▸ List.mem_cons_self d ds)
    have hdm : ¬ d = '-' := by rintro rfl; revert hd; decide
    have hrun2 : takeDigitRun (d :: (ds ++ rest)) = (d :: ds, rest) := by
      have h2 := hrun
      rw [hnat] at h2
      exact h2
    rw [intChars, if_neg hneg, hnat, List.cons_append, parseNumber, if_neg hdm, hrun2]
    show Except.ok (Json.num ((digitRunVal (d :: ds) : Int)), rest) =
      Except.ok (Json.num n, rest)
    rw [← hnat, hval]
    have hcast : ((n.natAbs : Int)) = n := by omega
    rw [hcast]

/-! ## One-step unfoldings of the fuelled parser -/

theorem parseVal_succ (f : Nat) (cs : List Char) :
    parseVal (f + 1) cs =
      (match skipWs cs with
       | [] => .error eofErr
       | c :: r =>
         if c = 'n' then
           match expectLit ['u', 'l', 'l'] r with
           | .ok r2 => .ok (.null, r2)
           | .error e => .error e
         else if c = 't' then
           match expectLit ['r', 'u', 'e'] r with
           | .ok r2 => .ok (.bool true, r2)
           | .error e => .error e
         else if c = 'f' then
           match expectLit ['a', 'l', 's', 'e'] r with
           | .ok r2 => .ok (.bool false, r2)
           | .error e => .error e
         else if c = '"' then
           match parseJStr [] r with
           | .ok (s, r2) => .ok (.str s, r2)
           | .error e => .error e
         else if c = '[' then
           match skipWs r with
           | [] => .error eofErr
           | c2 :: r2 =>
             if c2 = ']' then .ok (.arr [], r2)
             else
               match parseItems f r with
               | .ok (es, r3) => .ok (.arr es, r3)
               | .error e => .error e
         else if c = '{' then
           match skipWs r with
           | [] => .error eofErr
           | c2 :: r2 =>
             if c2 = '}' then .ok (.obj [], r2)
             else
               match parseFields f r with
               | .ok (fs, r3) => .ok (.obj fs, r3)
               | .error e => .error e
         else if c = '-' ∨ isDigitCh c then parseNumber (c :: r)
         else .error badErr) := rfl

theorem parseItems_succ (f : Nat) (cs : List Char) :
    parseItems (f + 1) cs =
      (match parseVal f cs with
       | .error e => .error e
       | .ok (v, r) =>
         match skipWs r with
         | [] => .error eofErr
         | c :: r2 =>
           if c = ',' then
             match parseItems f r2 with
             | .ok (vs, r3) => .ok (v :: vs, r3)
             | .error e => .error e
           else if c = ']' then .ok ([v], r2)
           else .error badErr) := rfl

theorem parseFields_succ (f : Nat) (cs : List Char) :
    parseFields (f + 1) cs =
      (match skipWs cs with
       | [] => .error eofErr
       | c :: r =>
         if c = '"' then
           match parseJStr [] r with
           | .error e => .error e
           | .ok (k, r1) =>
             match skipWs r1 with
             | [] => .error eofErr
             | c2 :: r2 =>
               if c2 = ':' then
                 match parseVal f r2 with
                 | .error e => .error e
                 | .ok (v, r3) =>
                   match skipWs r3 with
                   | [] => .error eofErr
                   | c3 :: r4 =>
                     if c3 = ',' then
                       match parseFields f r4 with
                       | .ok (kvs, r5) => .ok ((k, v) :: kvs, r5)
                       | .error e => .error e
                     else if c3 = '}' then .ok ([(k, v)], r4)
                     else .error badErr
               else .error badErr
         else .error badErr) := rfl

/-! ## Heads of rendered output -/

theorem renderVal_head (i : Nat) (j : Json) :
    ∃ c t, renderVal i j = c :: t ∧ isJsonWs c = false ∧ c ≠ ']' ∧ c ≠ '}' := by
  cases j with
  | null =>
    exact ⟨'n', ['u', 'l', 'l'], by simp [renderVal], by decide, by decide, by decide⟩
  | bool b =>
    cases b with
    | true =>
      exact ⟨'t', ['r', 'u', 'e'], by simp [renderVal], by decide, by decide, by decide⟩
    | false =>
      exact ⟨'f', ['a', 'l', 's', 'e'], by simp [renderVal], by decide, by decide,
        by decide⟩
  | num n =>
    by_cases hneg : n < 0
    · exact ⟨'-', natChars n.natAbs, by simp [renderVal, intChars, hneg], by decide,
        by decide, by decide⟩
    · obtain ⟨d, ds, hnat⟩ := List.exists_cons_of_ne_nil (natChars_ne_nil n.natAbs)
      have hd : isDigitCh d = true :=
        natChars_digits n.natAbs d (hnat ▸ List.mem_cons_self d ds)
      obtain ⟨hws, hbr, hbc, _⟩ := isDigitCh_head_facts hd
      exact ⟨d, ds, by simp [renderVal, intChars, hneg, hnat], hws, hbr, hbc⟩
  | str s =>
    exact ⟨'"', s.data.flatMap escapeChar ++ ['"'], by simp [renderVal, strChars],
      by decide, by decide, by decide⟩
  | arr es =>
    cases es with
    | nil => exact ⟨'[', [']'], by simp [renderVal], by decide, by decide, by decide⟩
    | cons e t =>
      exact ⟨'[', '\n' :: (renderItems (i + 1) e t ++ '\n' :: (indentChars i ++ [']'])),
        by simp [renderVal], by decide, by decide, by decide⟩
  | obj fs =>
    cases fs with
    | nil => exact ⟨'{', ['}'], by simp [renderVal], by decide, by decide, by decide⟩
    | cons f t =>
      exact ⟨'{', '\n' :: (renderFields (i + 1) f t ++ '\n' :: (indentChars i ++ ['}'])),
        by simp [renderVal], by decide, by decide, by decide⟩

theorem renderVal_length_pos (i : Nat) (j : Json) : 0 < (renderVal i j).length := by
  obtain ⟨c, t, hr, _⟩ := renderVal_head i j
  simp [hr]

theorem skipWs_renderVal (i : Nat) (j : Json) (x : List Char) :
    skipWs (renderVal i j ++ x) = renderVal i j ++ x := by
  obtain ⟨c, t, hr, hws, _⟩ := renderVal_head i j
  rw [hr, List.cons_append]
  exact skipWs_cons_not_ws _ hws

/-! ## Number-boundary helpers -/

theorem numBoundary_cons {c : Char} (l : List Char) (h : isDigitCh c = false) :
    numBoundary (c :: l) = true := by
  simp [numBoundary, h]

theorem numBoundary_ws_close (ws : List Char)
    (hws : ∀ c ∈ ws, isJsonWs c = true) {c : Char} (hc : isDigitCh c = false)
    (rest : List Char) : numBoundary (ws ++ c :: rest) = true := by
  cases ws with
  | nil => exact numBoundary_cons rest hc
  | cons w t =>
    exact numBoundary_cons _ (isJsonWs_not_digit (hws w (List.mem_cons_self w t)))

/-! ## Decomposition of rendered containers -/

theorem renderItems_decomp (i : Nat) (e : Json) (es : List Json) :
    ∃ sep, renderItems i e es = indentChars i ++ (renderVal i e ++ sep) := by
  cases es with
  | nil => exact ⟨[], by simp [renderItems]⟩
  | cons e2 es2 => exact ⟨',' :: '\n' :: renderItems i e2 es2, by simp [renderItems]⟩

theorem renderFields_head (i : Nat) (kv : String × Json) (fs : List (String × Json)) :
    ∃ tl, renderFields i kv fs = indentChars i ++ ('"' :: tl) := by
  obtain ⟨k, v⟩ := kv
  cases fs with
  | nil =>
    exact ⟨(k.data.flatMap escapeChar ++ ['"']) ++ (':' :: ' ' :: renderVal i v),
      by simp [renderFields, strChars]⟩
  | cons f2 fs2 =>
    exact ⟨(k.data.flatMap escapeChar ++ ['"']) ++
      (':' :: ' ' :: (renderVal i v ++ ',' :: '\n' :: renderFields i f2 fs2)),
      by simp [renderFields, strChars]⟩

theorem ws_newline_indent (i : Nat) :
    ∀ c ∈ '\n' :: indentChars i, isJsonWs c = true := by
  intro c hc
  rcases List.mem_cons.mp hc with rfl | hm
  · decide
  · exact indentChars_ws i c hm

theorem ws_append (l1 l2 : List Char) (h1 : ∀ c ∈ l1, isJsonWs c = true)
    (h2 : ∀ c ∈ l2, isJsonWs c = true) : ∀ c ∈ l1 ++ l2, isJsonWs c = true := by
  intro c hc
  rcases List.mem_append.mp hc with hm | hm
  · exact h1 c hm
  · exact h2 c hm

theorem ws_single_space : ∀ c ∈ [' '], isJsonWs c = true := by decide

theorem ws_single_newline : ∀ c ∈ ['\n'], isJsonWs c = true := by decide

/-! ## Reduction helpers for matches over parser results -/

theorem skipWs_match_cons {β : Sort _} (r : List Char) (c : Char) (t : List Char)
    (h : skipWs r = c :: t) (E : β) (F : Char → List Char → β) :
    (match skipWs r with
     | [] => E
     | c2 :: r2 => F c2 r2) = F c t := by
  rw [h]

theorem exceptPair_match_ok {γ α : Type _} {β : Sort _}
    (X : Except γ (α × List Char)) (v : α) (r : List Char)
    (E : γ → β) (F : α → List Char → β) : X = .ok (v, r) →
    (match X with
     | .error e => E e
     | .ok (v2, r2) => F v2 r2) = F v r := by
  intro h
  rw [h]

theorem exceptPair_match_ok2 {γ α : Type _} {β : Sort _}
    (X : Except γ (α × List Char)) (v : α) (r : List Char)
    (E : γ → β) (F : α → List Char → β) : X = .ok (v, r) →
    (match X with
     | .ok (v2, r2) => F v2 r2
     | .error e => E e) = F v r := by
  intro h
  rw [h]

theorem except_match_okS {γ α : Type _} {β : Sort _} (X : Except γ α) (a : α)
    (E : γ → β) (F : α → β) : X = .ok a →
    (match X with
     | .ok x => F x
     | .error e => E e) = F a := by
  intro h
  rw [h]

/-! ## The codec round trip, by mutual induction on the value -/

mutual
theorem rtVal : ∀ (j : Json) (i fuel : Nat) (ws rest : List Char),
    (∀ c ∈ ws, isJsonWs c = true) → (renderVal i j).length < fuel →
    numBoundary rest = true →
    parseVal fuel (ws ++ renderVal i j ++ rest) = .ok (j, rest)
  | .null, i, fuel, ws, rest, hws, hlen, hnb => by
    cases fuel with
    | zero => exact absurd hlen (Nat.not_lt_zero _)
    | succ f =>
      have hr : renderVal i Json.null = 'n' :: ['u', 'l', 'l'] := by simp [renderVal]
      have hskip : skipWs (ws ++ renderVal i Json.null ++ rest) =
          'n' :: (['u', 'l', 'l'] ++ rest) := by
        rw [List.append_assoc, skipWs_append_ws _ _ hws, hr, List.cons_append]
        exact skipWs_cons_not_ws _ (by decide)
      rw [parseVal_succ, skipWs_match_cons _ _ _ hskip, if_pos rfl,
        expectLit_self ['u', 'l', 'l'] rest]
  | .bool true, i, fuel, ws, rest, hws, hlen, hnb => by
    cases fuel with
    | zero => exact absurd hlen (Nat.not_lt_zero _)
    | succ f =>
      have hr : renderVal i (Json.bool true) = 't' :: ['r', 'u', 'e'] := by
        simp [renderVal]
      have hskip : skipWs (ws ++ renderVal i (Json.bool true) ++ rest) =
          't' :: (['r', 'u', 'e'] ++ rest) := by
        rw [List.append_assoc, skipWs_append_ws _ _ hws, hr, List.cons_append]
        exact skipWs_cons_not_ws _ (by decide)
      rw [parseVal_succ, skipWs_match_cons _ _ _ hskip, if_neg (by decide), if_pos rfl,
        expectLit_self ['r', 'u', 'e'] rest]
  | .bool false, i, fuel, ws, rest, hws, hlen, hnb => by
    cases fuel with
    | zero => exact absurd hlen (Nat.not_lt_zero _)
    | succ f =>
      have hr : renderVal i (Json.bool false) = 'f' :: ['a', 'l', 's', 'e'] := by
        simp [renderVal]
      have hskip : skipWs (ws ++ renderVal i (Json.bool false) ++ rest) =
          'f' :: (['a', 'l', 's', 'e'] ++ rest) := by
        rw [List.append_assoc, skipWs_append_ws _ _ hws, hr, List.cons_append]
        exact skipWs_cons_not_ws _ (by decide)
      rw [parseVal_succ, skipWs_match_cons _ _ _ hskip, if_neg (by decide),
        if_neg (by decide), if_pos rfl, expectLit_self ['a', 'l', 's', 'e'] rest]
  | .num n, i, fuel, ws, rest, hws, hlen, hnb => by
    cases fuel with
    | zero => exact absurd hlen (Nat.not_lt_zero _)
    | succ f =>
      have hr : renderVal i (Json.num n) = intChars n := by simp [renderVal]
      by_cases hneg : n < 0
      · have hi : intChars n = '-' :: natChars n.natAbs := by simp [intChars, hneg]
        have hskip : skipWs (ws ++ renderVal i (Json.num n) ++ rest) =
            '-' :: (natChars n.natAbs ++ rest) := by
          rw [List.append_assoc, skipWs_append_ws _ _ hws, hr, hi, List.cons_append]
          exact skipWs_cons_not_ws _ (by decide)
        rw [parseVal_succ, skipWs_match_cons _ _ _ hskip, if_neg (by decide),
          if_neg (by decide), if_neg (by decide), if_neg (by decide),
          if_neg (by decide), if_neg (by decide), if_pos (Or.inl rfl)]
        rw [show ('-' : Char) :: (natChars n.natAbs ++ rest) = intChars n ++ rest from by
          rw [hi, List.cons_append]]
        exact parseNumber_intChars n rest hnb
      · obtain ⟨d, ds, hnat⟩ := List.exists_cons_of_ne_nil (natChars_ne_nil n.natAbs)
        have hd : isDigitCh d = true :=
          natChars_digits n.natAbs d (hnat ▸ List.mem_cons_self d ds)
        obtain ⟨hdws, hdbr, hdbc, hdn, hdt, hdf, hdq, hdlb, hdcb, hdm⟩ :=
          isDigitCh_head_facts hd
        have hi : intChars n = d :: ds := by rw [intChars, if_neg hneg, hnat]
        have hskip : skipWs (ws ++ renderVal i (Json.num n) ++ rest) =
            d :: (ds ++ rest) := by
          rw [List.append_assoc, skipWs_append_ws _ _ hws, hr, hi, List.cons_append]
          exact skipWs_cons_not_ws _ hdws
        rw [parseVal_succ, skipWs_match_cons _ _ _ hskip, if_neg hdn, if_neg hdt,
          if_neg hdf, if_neg hdq, if_neg hdlb, if_neg hdcb, if_pos (Or.inr hd)]
        rw [show d :: (ds ++ rest) = intChars n ++ rest from by rw [hi, List.cons_append]]
        exact parseNumber_intChars n rest hnb
  | .str s, i, fuel, ws, rest, hws, hlen, hnb => by
    cases fuel with
    | zero => exact absurd hlen (Nat.not_lt_zero _)
    | succ f =>
      have hr : renderVal i (Json.str s) =
          '"' :: (s.data.flatMap escapeChar ++ ['"']) := by
        simp [renderVal, strChars]
      have hskip : skipWs (ws ++ renderVal i (Json.str s) ++ rest) =
          '"' :: (s.data.flatMap escapeChar ++ '"' :: rest) := by
        rw [List.append_assoc, skipWs_append_ws _ _ hws, hr, List.cons_append,
          skipWs_cons_not_ws _ (by decide)]
        simp
      rw [parseVal_succ, skipWs_match_cons _ _ _ hskip, if_neg (by decide),
        if_neg (by decide), if_neg (by decide), if_pos rfl,
        parseJStr_strChars s rest]
  | .arr [], i, fuel, ws, rest, hws, hlen, hnb => by
    cases fuel with
    | zero => exact absurd hlen (Nat.not_lt_zero _)
    | succ f =>
      have hr : renderVal i (Json.arr []) = '[' :: [']'] := by simp [renderVal]
      have hskip : skipWs (ws ++ renderVal i (Json.arr []) ++ rest) =
          '[' :: ([']'] ++ rest) := by
        rw [List.append_assoc, skipWs_append_ws _ _ hws, hr, List.cons_append]
        exact skipWs_cons_not_ws _ (by decide)
      have hskip2 : skipWs ([']'] ++ rest) = ']' :: rest := by
        rw [List.cons_append, List.nil_append]
        exact skipWs_cons_not_ws _ (by decide)
      rw [parseVal_succ, skipWs_match_cons _ _ _ hskip, if_neg (by decide),
        if_neg (by decide), if_neg (by decide), if_neg (by decide), if_pos rfl,
        skipWs_match_cons _ _ _ hskip2, if_pos rfl]
  | .arr (e :: es), i, fuel, ws, rest, hws, hlen, hnb => by
    cases fuel with
    | zero => exact absurd hlen (Nat.not_lt_zero _)
    | succ f =>
      have hr : renderVal i (Json.arr (e :: es)) =
          '[' :: '\n' :: (renderItems (i + 1) e es ++ '\n' :: (indentChars i ++ [']'])) := by
        simp [renderVal]
      have hlen2 : (renderItems (i + 1) e es).length + 1 < f := by
        rw [hr] at hlen
        simp only [List.length_cons, List.length_append] at hlen
        omega
      have hskip : skipWs (ws ++ renderVal i (Json.arr (e :: es)) ++ rest) =
          '[' :: (['\n'] ++ renderItems (i + 1) e es ++ ('\n' :: indentChars i) ++
            ']' :: rest) := by
        rw [List.append_assoc, skipWs_append_ws _ _ hws, hr, List.cons_append,
          skipWs_cons_not_ws _ (by decide)]
        simp
      obtain ⟨c0, t0, hre, hc0ws, hc0br, _⟩ := renderVal_head (i + 1) e
      obtain ⟨sep, hdec⟩ := renderItems_decomp (i + 1) e es
      have hskip2 : skipWs (['\n'] ++ renderItems (i + 1) e es ++
          ('\n' :: indentChars i) ++ ']' :: rest) =
          c0 :: (t0 ++ (sep ++ (('\n' :: indentChars i) ++ ']' :: rest))) := by
        rw [List.append_assoc, List.append_assoc,
          skipWs_append_ws _ _ ws_single_newline, hdec, List.append_assoc,
          skipWs_append_ws _ _ (indentChars_ws (i + 1)), List.append_assoc,
          skipWs_renderVal, hre, List.cons_append]
      have hkey : parseItems f (['\n'] ++ renderItems (i + 1) e es ++
          ('\n' :: indentChars i) ++ ']' :: rest) = .ok (e :: es, rest) :=
        rtItems e es (i + 1) f ['\n'] ('\n' :: indentChars i) rest
          ws_single_newline (ws_newline_indent i) hlen2
      rw [parseVal_succ, skipWs_match_cons _ _ _ hskip, if_neg (by decide),
        if_neg (by decide), if_neg (by decide), if_neg (by decide), if_pos rfl,
        skipWs_match_cons _ _ _ hskip2, if_neg hc0br, hkey]
  | .obj [], i, fuel, ws, rest, hws, hlen, hnb => by
    cases fuel with
    | zero => exact absurd hlen (Nat.not_lt_zero _)
    | succ f =>
      have hr : renderVal i (Json.obj []) = '{' :: ['}'] := by simp [renderVal]
      have hskip : skipWs (ws ++ renderVal i (Json.obj []) ++ rest) =
          '{' :: (['}'] ++ rest) := by
        rw [List.append_assoc, skipWs_append_ws _ _ hws, hr, List.cons_append]
        exact skipWs_cons_not_ws _ (by decide)
      have hskip2 : skipWs (['}'] ++ rest) = '}' :: rest := by
        rw [List.cons_append, List.nil_append]
        exact skipWs_cons_not_ws _ (by decide)
      rw [parseVal_succ, skipWs_match_cons _ _ _ hskip, if_neg (by decide),
        if_neg (by decide), if_neg (by decide), if_neg (by decide),
        if_neg (by decide), if_pos rfl, skipWs_match_cons _ _ _ hskip2, if_pos rfl]
  | .obj (kv :: fs), i, fuel, ws, rest, hws, hlen, hnb => by
    cases fuel with
    | zero => exact absurd hlen (Nat.not_lt_zero _)
    | succ f =>
      have hr : renderVal i (Json.obj (kv :: fs)) =
          '{' :: '\n' :: (renderFields (i + 1) kv fs ++ '\n' :: (indentChars i ++ ['}'])) := by
        simp [renderVal]
      have hlen2 : (renderFields (i + 1) kv fs).length + 1 < f := by
        rw [hr] at hlen
        simp only [List.length_cons, List.length_append] at hlen
        omega
      have hskip : skipWs (ws ++ renderVal i (Json.obj (kv :: fs)) ++ rest) =
          '{' :: (['\n'] ++ renderFields (i + 1) kv fs ++ ('\n' :: indentChars i) ++
            '}' :: rest) := by
        rw [List.append_assoc, skipWs_append_ws _ _ hws, hr, List.cons_append,
          skipWs_cons_not_ws _ (by decide)]
        simp
      obtain ⟨tl, hdec⟩ := renderFields_head (i + 1) kv fs
      have hskip2 : skipWs (['\n'] ++ renderFields (i + 1) kv fs ++
          ('\n' :: indentChars i) ++ '}' :: rest) =
          '"' :: (tl ++ (('\n' :: indentChars i) ++ '}' :: rest)) := by
        rw [List.append_assoc, List.append_assoc,
          skipWs_append_ws _ _ ws_single_newline, hdec, List.append_assoc,
          skipWs_append_ws _ _ (indentChars_ws (i + 1)), List.cons_append,
          skipWs_cons_not_ws _ (by decide)]
      have hkey : parseFields f (['\n'] ++ renderFields (i + 1) kv fs ++
          ('\n' :: indentChars i) ++ '}' :: rest) = .ok (kv :: fs, rest) :=
        rtFields kv fs (i + 1) f ['\n'] ('\n' :: indentChars i) rest
          ws_single_newline (ws_newline_indent i) hlen2
      rw [parseVal_succ, skipWs_match_cons _ _ _ hskip, if_neg (by decide),
        if_neg (by decide), if_neg (by decide), if_neg (by decide),
        if_neg (by decide), if_pos rfl, skipWs_match_cons _ _ _ hskip2,
        if_neg (by decide), hkey]
termination_by j _ _ _ _ _ _ _ => sizeOf j
decreasing_by all_goals (simp_wf; try omega)

theorem rtItems : ∀ (e : Json) (es : List Json) (i fuel : Nat)
    (ws1 ws2 rest : List Char),
    (∀ c ∈ ws1, isJsonWs c = true) → (∀ c ∈ ws2, isJsonWs c = true) →
    (renderItems i e es).length + 1 < fuel →
    parseItems fuel (ws1 ++ renderItems i e es ++ ws2 ++ ']' :: rest) = .ok (e :: es, rest)
  | e, [], i, fuel, ws1, ws2, rest, hws1, hws2, hlen => by
    cases fuel with
    | zero => exact absurd hlen (Nat.not_lt_zero _)
    | succ f =>
      have hitems : renderItems i e [] = indentChars i ++ renderVal i e := by
        simp [renderItems]
      have hlen2 : (renderVal i e).length < f := by
        rw [hitems] at hlen
        simp only [List.length_append] at hlen
        omega
      have harg : ws1 ++ renderItems i e [] ++ ws2 ++ ']' :: rest =
          (ws1 ++ indentChars i) ++ renderVal i e ++ (ws2 ++ ']' :: rest) := by
        rw [hitems]
        simp
      have hval : parseVal f ((ws1 ++ indentChars i) ++ renderVal i e ++
          (ws2 ++ ']' :: rest)) = .ok (e, ws2 ++ ']' :: rest) :=
        rtVal e i f (ws1 ++ indentChars i) (ws2 ++ ']' :: rest)
          (ws_append _ _ hws1 (indentChars_ws i)) hlen2
          (numBoundary_ws_close ws2 hws2 (by decide) rest)
      have hskip : skipWs (ws2 ++ ']' :: rest) = ']' :: rest := by
        rw [skipWs_append_ws _ _ hws2]
        exact skipWs_cons_not_ws _ (by decide)
      rw [harg, parseItems_succ, hval]
      simp only []
      rw [skipWs_match_cons _ _ _ hskip, if_neg (by decide), if_pos rfl]
  | e, e2 :: es2, i, fuel, ws1, ws2, rest, hws1, hws2, hlen => by
    cases fuel with
    | zero => exact absurd hlen (Nat.not_lt_zero _)
    | succ f =>
      have hitems : renderItems i e (e2 :: es2) =
          indentChars i ++ (renderVal i e ++ ',' :: '\n' :: renderItems i e2 es2) := by
        simp [renderItems]
      have hlen2 : (renderVal i e).length < f := by
        rw [hitems] at hlen
        simp only [List.length_append, List.length_cons] at hlen
        omega
      have hlen3 : (renderItems i e2 es2).length + 1 < f := by
        rw [hitems] at hlen
        simp only [List.length_append, List.length_cons] at hlen
        omega
      have harg : ws1 ++ renderItems i e (e2 :: es2) ++ ws2 ++ ']' :: rest =
          (ws1 ++ indentChars i) ++ renderVal i e ++
            (',' :: ('\n' :: (renderItems i e2 es2 ++ ws2 ++ ']' :: rest))) := by
        rw [hitems]
        simp
      have hval : parseVal f ((ws1 ++ indentChars i) ++ renderVal i e ++
          (',' :: ('\n' :: (renderItems i e2 es2 ++ ws2 ++ ']' :: rest)))) =
          .ok (e, ',' :: ('\n' :: (renderItems i e2 es2 ++ ws2 ++ ']' :: rest))) :=
        rtVal e i f (ws1 ++ indentChars i) _
          (ws_append _ _ hws1 (indentChars_ws i)) hlen2 (numBoundary_cons _ (by decide))
      have hskip : skipWs (',' :: ('\n' :: (renderItems i e2 es2 ++ ws2 ++ ']' :: rest))) =
          ',' :: ('\n' :: (renderItems i e2 es2 ++ ws2 ++ ']' :: rest)) :=
        skipWs_cons_not_ws _ (by decide)
      have hkey : parseItems f ('\n' :: (renderItems i e2 es2 ++ ws2 ++ ']' :: rest)) =
          .ok (e2 :: es2, rest) := by
        rw [show ('\n' : Char) :: (renderItems i e2 es2 ++ ws2 ++ ']' :: rest) =
          ['\n'] ++ renderItems i e2 es2 ++ ws2 ++ ']' :: rest from by simp]
        exact rtItems e2 es2 i f ['\n'] ws2 rest ws_single_newline hws2 hlen3
      rw [harg, parseItems_succ, hval]
      simp only []
      rw [skipWs_match_cons _ _ _ hskip, if_pos rfl, hkey]
termination_by e es _ _ _ _ _ _ _ _ => sizeOf e + sizeOf es
decreasing_by all_goals (simp_wf; try omega)

theorem rtFields : ∀ (kv : String × Json) (fs : List (String × Json)) (i fuel : Nat)
    (ws1 ws2 rest : List Char),
    (∀ c ∈ ws1, isJsonWs c = true) → (∀ c ∈ ws2, isJsonWs c = true) →
    (renderFields i kv fs).length + 1 < fuel →
    parseFields fuel (ws1 ++ renderFields i kv fs ++ ws2 ++ '}' :: rest) =
      .ok (kv :: fs, rest)
  | (k, v), [], i, fuel, ws1, ws2, rest, hws1, hws2, hlen => by
    cases fuel with
    | zero => exact absurd hlen (Nat.not_lt_zero _)
    | succ f =>
      have hfields : renderFields i (k, v) [] =
          indentChars i ++ (strChars k ++ ':' :: ' ' :: renderVal i v) := by
        simp [renderFields]
      have hlen2 : (renderVal i v).length < f := by
        rw [hfields] at hlen
        simp only [List.length_append, List.length_cons] at hlen
        omega
      have hskip : skipWs (ws1 ++ renderFields i (k, v) [] ++ ws2 ++ '}' :: rest) =
          '"' :: (k.data.flatMap escapeChar ++
            '"' :: (':' :: (' ' :: (renderVal i v ++ (ws2 ++ '}' :: rest))))) := by
        rw [List.append_assoc, List.append_assoc, skipWs_append_ws _ _ hws1, hfields,
          List.append_assoc, skipWs_append_ws _ _ (indentChars_ws i), strChars,
          List.cons_append, List.cons_append, skipWs_cons_not_ws _ (by decide)]
        simp
      have hjk : parseJStr [] (k.data.flatMap escapeChar ++
          '"' :: (':' :: (' ' :: (renderVal i v ++ (ws2 ++ '}' :: rest))))) =
          .ok (k, ':' :: (' ' :: (renderVal i v ++ (ws2 ++ '}' :: rest)))) :=
        parseJStr_strChars k _
      have hskip2 : skipWs (':' :: (' ' :: (renderVal i v ++ (ws2 ++ '}' :: rest)))) =
          ':' :: (' ' :: (renderVal i v ++ (ws2 ++ '}' :: rest))) :=
        skipWs_cons_not_ws _ (by decide)
      have hval : parseVal f (' ' :: (renderVal i v ++ (ws2 ++ '}' :: rest))) =
          .ok (v, ws2 ++ '}' :: rest) := by
        rw [show (' ' : Char) :: (renderVal i v ++ (ws2 ++ '}' :: rest)) =
          [' '] ++ renderVal i v ++ (ws2 ++ '}' :: rest) from by simp]
        exact rtVal v i f [' '] (ws2 ++ '}' :: rest) ws_single_space hlen2
          (numBoundary_ws_close ws2 hws2 (by decide) rest)
      have hskip3 : skipWs (ws2 ++ '}' :: rest) = '}' :: rest := by
        rw [skipWs_append_ws _ _ hws2]
        exact skipWs_cons_not_ws _ (by decide)
      rw [parseFields_succ, skipWs_match_cons _ _ _ hskip, if_pos rfl, hjk]
      simp only []
      rw [skipWs_match_cons _ _ _ hskip2, if_pos rfl, hval]
      simp only []
      rw [skipWs_match_cons _ _ _ hskip3, if_neg (by decide), if_pos rfl]
  | (k, v), f2 :: fs2, i, fuel, ws1, ws2, rest, hws1, hws2, hlen => by
    cases fuel with
    | zero => exact absurd hlen (Nat.not_lt_zero _)
    | succ f =>
      have hfields : renderFields i (k, v) (f2 :: fs2) =
          indentChars i ++ (strChars k ++ ':' :: ' ' ::
            (renderVal i v ++ ',' :: '\n' :: renderFields i f2 fs2)) := by
        simp [renderFields]
      have hlen2 : (renderVal i v).length < f := by
        rw [hfields] at hlen
        simp only [List.length_append, List.length_cons, strChars] at hlen
        omega
      have hlen3 : (renderFields i f2 fs2).length + 1 < f := by
        rw [hfields] at hlen
        simp only [List.length_append, List.length_cons, strChars] at hlen
        omega
      have hskip : skipWs (ws1 ++ renderFields i (k, v) (f2 :: fs2) ++ ws2 ++ '}' :: rest) =
          '"' :: (k.data.flatMap escapeChar ++
            '"' :: (':' :: (' ' :: (renderVal i v ++
              (',' :: ('\n' :: (renderFields i f2 fs2 ++ ws2 ++ '}' :: rest))))))) := by
        rw [List.append_assoc, List.append_assoc, skipWs_append_ws _ _ hws1, hfields,
          List.append_assoc, skipWs_append_ws _ _ (indentChars_ws i), strChars,
          List.cons_append, List.cons_append, skipWs_cons_not_ws _ (by decide)]
        simp
      have hjk : parseJStr [] (k.data.flatMap escapeChar ++
          '"' :: (':' :: (' ' :: (renderVal i v ++
            (',' :: ('\n' :: (renderFields i f2 fs2 ++ ws2 ++ '}' :: rest))))))) =
          .ok (k, ':' :: (' ' :: (renderVal i v ++
            (',' :: ('\n' :: (renderFields i f2 fs2 ++ ws2 ++ '}' :: rest)))))) :=
        parseJStr_strChars k _
      have hskip2 : skipWs (':' :: (' ' :: (renderVal i v ++
          (',' :: ('\n' :: (renderFields i f2 fs2 ++ ws2 ++ '}' :: rest)))))) =
          ':' :: (' ' :: (renderVal i v ++
          (',' :: ('\n' :: (renderFields i f2 fs2 ++ ws2 ++ '}' :: rest))))) :=
        skipWs_cons_not_ws _ (by decide)
      have hval : parseVal f (' ' :: (renderVal i v ++
          (',' :: ('\n' :: (renderFields i f2 fs2 ++ ws2 ++ '}' :: rest))))) =
          .ok (v, ',' :: ('\n' :: (renderFields i f2 fs2 ++ ws2 ++ '}' :: rest))) := by
        rw [show (' ' : Char) :: (renderVal i v ++
          (',' :: ('\n' :: (renderFields i f2 fs2 ++ ws2 ++ '}' :: rest)))) =
          [' '] ++ renderVal i v ++
          (',' :: ('\n' :: (renderFields i f2 fs2 ++ ws2 ++ '}' :: rest))) from by simp]
        exact rtVal v i f [' ']
          (',' :: ('\n' :: (renderFields i f2 fs2 ++ ws2 ++ '}' :: rest)))
          ws_single_space hlen2 (numBoundary_cons _ (by decide))
      have hskip3 : skipWs (',' :: ('\n' :: (renderFields i f2 fs2 ++ ws2 ++ '}' :: rest))) =
          ',' :: ('\n' :: (renderFields i f2 fs2 ++ ws2 ++ '}' :: rest)) :=
        skipWs_cons_not_ws _ (by decide)
      have hkey : parseFields f ('\n' :: (renderFields i f2 fs2 ++ ws2 ++ '}' :: rest)) =
          .ok (f2 :: fs2, rest) := by
        rw [show ('\n' : Char) :: (renderFields i f2 fs2 ++ ws2 ++ '}' :: rest) =
          ['\n'] ++ renderFields i f2 fs2 ++ ws2 ++ '}' :: rest from by simp]
        exact rtFields f2 fs2 i f ['\n'] ws2 rest ws_single_newline hws2 hlen3
      rw [parseFields_succ, skipWs_match_cons _ _ _ hskip, if_pos rfl, hjk]
      simp only []
      rw [skipWs_match_cons _ _ _ hskip2, if_pos rfl, hval]
      simp only []
      rw [skipWs_match_cons _ _ _ hskip3, if_pos rfl, hkey]
termination_by kv fs _ _ _ _ _ _ _ _ => sizeOf kv + sizeOf fs
decreasing_by all_goals (simp_wf; try omega)
end

/-! ## From the value round trip to the full snapshot codec -/

end RustDB
